import Mathlib

/-!
# Verification of the KOLP backup/interchange layer

Shallow embedding of the backup subsystem of the Kolp Notes application
(`src/main/main.ts`): the KOLP binary container codec (`createKolpFile`,
`parseKolpFile`), the Google sync IPC handlers (`google-sync-upload`,
`google-sync-download`) with their token-refresh policy, the Drive helper
`findKolpFileInDrive`, and the OAuth loopback flow (`startGoogleAuth`).

Buffers are modeled as `List Nat` of byte values; JavaScript numbers holding
epoch milliseconds as `Int`; fallible operations as `Option`/`Except`.
Node's `JSON.stringify`/`JSON.parse` builtins are modeled by an executable
serializer and recursive-descent parser over a `JValue` tree (integers for
JSON numbers, byte lists for strings); `crypto.createHash('sha256')` by an
executable FIPS 180-4 SHA-256 over byte lists. The IPC handlers, which
interleave network calls, are modeled as deterministic functions of an
oracle environment that records the outcome of each remote call, and they
return the list of side effects they perform, in order.
-/

set_option maxRecDepth 100000

namespace Kolp

/-! ## Byte-level helpers -/

/-- Little-endian encoding of `n` into `k` bytes, as `Buffer.writeUInt32LE`
and `Buffer.writeBigInt64LE` lay bytes out. -/
def leBytes : Nat → Nat → List Nat
  | 0, _ => []
  | k + 1, n => (n % 256) :: leBytes k (n / 256)

/-- Little-endian value of a list of bytes, as `Buffer.readUInt32LE` and
`Buffer.readBigUInt64LE` read them. -/
def leVal (bs : List Nat) : Nat :=
  bs.foldr (fun b acc => b + 256 * acc) 0

/-- Big-endian encoding of `n` into `k` bytes (used by SHA-256 for words
and the length field). -/
def beBytes : Nat → Nat → List Nat
  | 0, _ => []
  | k + 1, n => beBytes k (n / 256) ++ [n % 256]

theorem leBytes_length (k n : Nat) : (leBytes k n).length = k := by
  induction k generalizing n with
  | zero => rfl
  | succ k ih => simp [leBytes, ih]

theorem leVal_leBytes (k n : Nat) (h : n < 256 ^ k) :
    leVal (leBytes k n) = n := by
  induction k generalizing n with
  | zero => simp at h; simp [h, leBytes, leVal]
  | succ k ih =>
    have hlt : n / 256 < 256 ^ k := by
      rw [Nat.div_lt_iff_lt_mul (by norm_num)]
      calc n < 256 ^ (k + 1) := h
      _ = 256 ^ k * 256 := by ring
    have := ih (n / 256) hlt
    simp only [leBytes, leVal, List.foldr] at *
    rw [this]
    omega

/-- Lowercase hex digit byte (ASCII), as produced by `digest('hex')`. -/
def hexDigit (n : Nat) : Nat :=
  if n < 10 then 48 + n else 87 + n

/-- Lowercase hex rendering of a byte list as ASCII bytes: two hex
characters per input byte, as `hash.digest('hex')` renders a digest. -/
def hexAscii (bs : List Nat) : List Nat :=
  bs.flatMap (fun b => [hexDigit (b / 16), hexDigit (b % 16)])

theorem hexAscii_length (bs : List Nat) : (hexAscii bs).length = 2 * bs.length := by
  induction bs with
  | nil => rfl
  | cons b t ih => simp [hexAscii, List.flatMap] at *; omega

/-! ## SHA-256 (FIPS 180-4), executable over `List Nat` byte values

32-bit words are `Nat` values kept below `2 ^ 32` by reducing modulo
`4294967296` after every addition; `Nat.land`, `Nat.xor` and division by
powers of two implement the bitwise operations. -/

/-- Reduce a word modulo `2 ^ 32`. -/
def w32 (n : Nat) : Nat := n % 4294967296

/-- Right-rotate a 32-bit word by `k` positions (input assumed `< 2 ^ 32`). -/
def rotr (k n : Nat) : Nat := n / 2 ^ k + n % 2 ^ k * 2 ^ (32 - k)

/-- Bitwise complement of a 32-bit word. -/
def compl32 (n : Nat) : Nat := 4294967295 - n

/-- The eight SHA-256 initial hash values. -/
def shaH0 : List Nat :=
  [1779033703, 3144134277, 1013904242, 2773480762,
   1359893119, 2600822924, 528734635, 1541459225]

/-- The 64 SHA-256 round constants. -/
def shaK : List Nat :=
  [1116352408, 1899447441, 3049323471, 3921009573, 961987163,
   1508970993, 2453635748, 2870763221, 3624381080, 310598401,
   607225278, 1426881987, 1925078388, 2162078206, 2614888103,
   3248222580, 3835390401, 4022224774, 264347078, 604807628,
   770255983, 1249150122, 1555081692, 1996064986, 2554220882,
   2821834349, 2952996808, 3210313671, 3336571891, 3584528711,
   113926993, 338241895, 666307205, 773529912, 1294757372,
   1396182291, 1695183700, 1986661051, 2177026350, 2456956037,
   2730485921, 2820302411, 3259730800, 3345764771, 3516065817,
   3600352804, 4094571909, 275423344, 430227734, 506948616,
   659060556, 883997877, 958139571, 1322822218, 1537002063,
   1747873779, 1955562222, 2024104815, 2227730452, 2361852424,
   2428436474, 2756734187, 3204031479, 3329325298]

/-- `σ₀`. -/
def ssig0 (x : Nat) : Nat := Nat.xor (rotr 7 x) (Nat.xor (rotr 18 x) (x / 2 ^ 3))

/-- `σ₁`. -/
def ssig1 (x : Nat) : Nat := Nat.xor (rotr 17 x) (Nat.xor (rotr 19 x) (x / 2 ^ 10))

/-- `Σ₀`. -/
def bsig0 (x : Nat) : Nat := Nat.xor (rotr 2 x) (Nat.xor (rotr 13 x) (rotr 22 x))

/-- `Σ₁`. -/
def bsig1 (x : Nat) : Nat := Nat.xor (rotr 6 x) (Nat.xor (rotr 11 x) (rotr 25 x))

/-- `Ch(e,f,g)`. -/
def shaCh (e f g : Nat) : Nat := Nat.xor (Nat.land e f) (Nat.land (compl32 e) g)

/-- `Maj(a,b,c)`. -/
def shaMaj (a b c : Nat) : Nat :=
  Nat.xor (Nat.land a b) (Nat.xor (Nat.land a c) (Nat.land b c))

/-- SHA-256 padding: append `0x80`, zeros to 56 mod 64, then the 64-bit
big-endian bit length. -/
def shaPad (msg : List Nat) : List Nat :=
  msg ++ [128] ++ List.replicate ((119 - msg.length % 64) % 64) 0
      ++ beBytes 8 (8 * msg.length)

/-- Split a byte list into 64-byte blocks (fuelled so that the kernel can
evaluate it; the fuel `bs.length` always suffices since every step drops
64 bytes of a nonempty list). -/
def shaBlocksAux : Nat → List Nat → List (List Nat)
  | 0, _ => []
  | f + 1, bs => if bs = [] then [] else bs.take 64 :: shaBlocksAux f (bs.drop 64)

/-- Split a byte list into 64-byte blocks. -/
def shaBlocks (bs : List Nat) : List (List Nat) :=
  shaBlocksAux bs.length bs

/-- The 16 big-endian message words of one block. -/
def msgWords (block : List Nat) : List Nat :=
  (List.range 16).map fun i =>
    block.getD (4 * i) 0 * 2 ^ 24 + block.getD (4 * i + 1) 0 * 2 ^ 16 +
      block.getD (4 * i + 2) 0 * 2 ^ 8 + block.getD (4 * i + 3) 0

/-- Extend the message schedule from 16 to 64 words. -/
def extendW (w : Array Nat) : Array Nat :=
  let i := w.size
  let s0 := ssig0 (w.getD (i - 15) 0)
  let s1 := ssig1 (w.getD (i - 2) 0)
  w.push (w32 (w.getD (i - 16) 0 + s0 + w.getD (i - 7) 0 + s1))

/-- One round of the SHA-256 compression function on state
`[a, b, c, d, e, f, g, h]`. -/
def shaRound (st : List Nat) (kt wt : Nat) : List Nat :=
  let a := st.getD 0 0
  let b := st.getD 1 0
  let c := st.getD 2 0
  let d := st.getD 3 0
  let e := st.getD 4 0
  let f := st.getD 5 0
  let g := st.getD 6 0
  let hh := st.getD 7 0
  let t1 := w32 (hh + bsig1 e + shaCh e f g + kt + wt)
  let t2 := w32 (bsig0 a + shaMaj a b c)
  [w32 (t1 + t2), a, b, c, w32 (d + t1), e, f, g]

/-- Compress one 64-byte block into the running 8-word state. -/
def shaCompress (st : List Nat) (block : List Nat) : List Nat :=
  let w := (List.range 48).foldl (fun acc _ => extendW acc) (msgWords block).toArray
  let fin := (List.range 64).foldl
    (fun s t => shaRound s (shaK.getD t 0) (w.getD t 0)) st
  (List.range 8).map fun i => w32 (st.getD i 0 + fin.getD i 0)

/-- SHA-256 digest of a byte list, as 32 bytes. -/
def sha256 (msg : List Nat) : List Nat :=
  let final := (shaBlocks (shaPad msg)).foldl shaCompress shaH0
  final.flatMap (beBytes 4)

/-! ## JSON model

A model of the plain-data values `JSON.stringify` / `JSON.parse` exchange:
`null`, booleans, integer numbers, strings (as byte lists) and
insertion-ordered arrays and objects. The serializer emits the compact
form `JSON.stringify` produces (no whitespace, shortcut escapes plus
lowercase `\u00XX` for other control characters); the parser is a fuelled
recursive-descent reader of that grammar that requires the whole input to
be consumed, modeling that `JSON.parse` throws on trailing garbage. -/

/-- A plain-data JSON value: the type of the snapshot handed to the codec. -/
inductive JValue where
  | jnull : JValue
  | jbool (b : Bool) : JValue
  | jnum (n : Int) : JValue
  | jstr (s : List Nat) : JValue
  | jarr (xs : List JValue) : JValue
  | jobj (kvs : List (List Nat × JValue)) : JValue

/-- Decimal ASCII digits, most significant first (fuelled so that the
kernel can evaluate it; any fuel above the number suffices since dividing
by ten strictly shrinks it). -/
def natDigsAux : Nat → Nat → List Nat
  | 0, _ => []
  | f + 1, n => if n < 10 then [48 + n] else natDigsAux f (n / 10) ++ [48 + n % 10]

/-- Decimal ASCII digits of a natural number, most significant first. -/
def natDigs (n : Nat) : List Nat :=
  natDigsAux (n + 1) n

theorem natDigsAux_congr (n : Nat) :
    ∀ f g, n < f → n < g → natDigsAux f n = natDigsAux g n := by
  induction n using Nat.strong_induction_on with
  | _ n ih =>
    intro f g hf hg
    match f, g with
    | f + 1, g + 1 =>
      simp only [natDigsAux]
      by_cases h : n < 10
      · simp [h]
      · simp only [h, if_false]
        rw [ih (n / 10) (Nat.div_lt_self (by omega) (by norm_num)) f g
          (by omega) (by omega)]

/-- The defining recurrence of `natDigs`. -/
theorem natDigs_eq (n : Nat) :
    natDigs n = if n < 10 then [48 + n] else natDigs (n / 10) ++ [48 + n % 10] := by
  unfold natDigs
  rw [show natDigsAux (n + 1) n = if n < 10 then [48 + n]
      else natDigsAux n (n / 10) ++ [48 + n % 10] from rfl]
  by_cases h : n < 10
  · simp [h]
  · simp only [h, if_false]
    rw [natDigsAux_congr (n / 10) n (n / 10 + 1)
      (by omega) (by omega)]

/-- ASCII rendering of an integer as `JSON.stringify` renders it. -/
def serInt (n : Int) : List Nat :=
  if n < 0 then 45 :: natDigs n.natAbs else natDigs n.natAbs

/-- Escape one string byte as `JSON.stringify` does: `\"`, `\\`, the
shortcut escapes for backspace, tab, newline, form feed and carriage
return, `\u00XX` for the other control bytes, and the byte itself
otherwise. -/
def escByte (c : Nat) : List Nat :=
  if c = 34 then [92, 34]
  else if c = 92 then [92, 92]
  else if c = 8 then [92, 98]
  else if c = 9 then [92, 116]
  else if c = 10 then [92, 110]
  else if c = 12 then [92, 102]
  else if c = 13 then [92, 114]
  else if c < 32 then [92, 117, 48, 48, hexDigit (c / 16), hexDigit (c % 16)]
  else [c]

/-- Serialized body of a string (without the surrounding quotes). -/
def escBody (s : List Nat) : List Nat := s.flatMap escByte

mutual

/-- `JSON.stringify` on a plain-data value: compact UTF-8 JSON bytes. -/
def stringify : JValue → List Nat
  | .jnull => [110, 117, 108, 108]
  | .jbool true => [116, 114, 117, 101]
  | .jbool false => [102, 97, 108, 115, 101]
  | .jnum n => serInt n
  | .jstr s => 34 :: (escBody s ++ [34])
  | .jarr xs => 91 :: serElems xs
  | .jobj kvs => 123 :: serMembers kvs

/-- Elements of an array, starting right after `[`, closing bracket included. -/
def serElems : List JValue → List Nat
  | [] => [93]
  | x :: xs => stringify x ++ serTail xs

/-- Remaining elements of an array after the first, closing bracket included. -/
def serTail : List JValue → List Nat
  | [] => [93]
  | x :: xs => 44 :: (stringify x ++ serTail xs)

/-- Members of an object, starting right after the opening brace, closing
brace included. -/
def serMembers : List (List Nat × JValue) → List Nat
  | [] => [125]
  | (k, v) :: kvs => (34 :: (escBody k ++ [34])) ++ (58 :: stringify v) ++ serMTail kvs

/-- Remaining members of an object after the first, closing brace included. -/
def serMTail : List (List Nat × JValue) → List Nat
  | [] => [125]
  | (k, v) :: kvs =>
      44 :: ((34 :: (escBody k ++ [34])) ++ (58 :: stringify v) ++ serMTail kvs)

end

/-- ASCII decimal digit test. -/
def isDigit (c : Nat) : Bool := 48 ≤ c && c ≤ 57

/-- Value of a hex digit byte, lowercase or uppercase. -/
def hexVal (c : Nat) : Option Nat :=
  if 48 ≤ c ∧ c ≤ 57 then some (c - 48)
  else if 97 ≤ c ∧ c ≤ 102 then some (c - 87)
  else if 65 ≤ c ∧ c ≤ 70 then some (c - 55)
  else none

/-- Accumulate decimal ASCII digits into a natural number. -/
def natFromDigits (ds : List Nat) : Nat :=
  ds.foldl (fun a c => 10 * a + (c - 48)) 0

/-- Read a maximal nonempty run of decimal digits. -/
def parseNatDigits (bs : List Nat) : Option (Nat × List Nat) :=
  let ds := bs.takeWhile (fun c => isDigit c)
  if ds.isEmpty then none
  else some (natFromDigits ds, bs.dropWhile (fun c => isDigit c))

/-- Translate a one-character escape code to its byte. -/
def unescByte (e : Nat) : Option Nat :=
  if e = 34 then some 34
  else if e = 92 then some 92
  else if e = 47 then some 47
  else if e = 98 then some 8
  else if e = 116 then some 9
  else if e = 110 then some 10
  else if e = 102 then some 12
  else if e = 114 then some 13
  else none

mutual

/-- Read a string body up to (and consuming) the closing quote. -/
def parseStrBody : List Nat → Option (List Nat × List Nat)
  | [] => none
  | c :: rest =>
    if c = 34 then some ([], rest)
    else if c = 92 then parseEsc rest
    else (parseStrBody rest).map (fun p => (c :: p.1, p.2))

/-- Read what follows a backslash inside a string. -/
def parseEsc : List Nat → Option (List Nat × List Nat)
  | [] => none
  | e :: rest =>
    if e = 117 then
      match rest with
      | h1 :: h2 :: h3 :: h4 :: r2 =>
        match hexVal h1, hexVal h2, hexVal h3, hexVal h4 with
        | some a, some b, some c, some d =>
          let code := ((a * 16 + b) * 16 + c) * 16 + d
          if code < 256 then
            (parseStrBody r2).map (fun p => (code :: p.1, p.2))
          else none
        | _, _, _, _ => none
      | _ => none
    else
      match unescByte e with
      | some c => (parseStrBody rest).map (fun p => (c :: p.1, p.2))
      | none => none

end

mutual

/-- Fuelled recursive-descent reader for one JSON value. -/
def parseVal : Nat → List Nat → Option (JValue × List Nat)
  | 0, _ => none
  | _ + 1, [] => none
  | f + 1, c :: bs =>
    if c = 110 then
      match bs with
      | 117 :: 108 :: 108 :: r => some (.jnull, r)
      | _ => none
    else if c = 116 then
      match bs with
      | 114 :: 117 :: 101 :: r => some (.jbool true, r)
      | _ => none
    else if c = 102 then
      match bs with
      | 97 :: 108 :: 115 :: 101 :: r => some (.jbool false, r)
      | _ => none
    else if c = 34 then
      (parseStrBody bs).map (fun p => (.jstr p.1, p.2))
    else if c = 91 then
      parseArrElems f bs
    else if c = 123 then
      parseObjElems f bs
    else if c = 45 then
      match parseNatDigits bs with
      | some (n, r) => some (.jnum (-(n : Int)), r)
      | none => none
    else if isDigit c then
      match parseNatDigits (c :: bs) with
      | some (n, r) => some (.jnum (n : Int), r)
      | none => none
    else none

/-- Read the elements of an array, positioned right after `[`. -/
def parseArrElems : Nat → List Nat → Option (JValue × List Nat)
  | 0, _ => none
  | _ + 1, [] => none
  | f + 1, c :: bs =>
    if c = 93 then some (.jarr [], bs)
    else
      match parseVal f (c :: bs) with
      | some (v, r) =>
        (parseArrTail f r).map (fun p => (.jarr (v :: p.1), p.2))
      | none => none

/-- Read `,`-separated further elements of an array, or its closing `]`. -/
def parseArrTail : Nat → List Nat → Option (List JValue × List Nat)
  | 0, _ => none
  | _ + 1, [] => none
  | f + 1, c :: bs =>
    if c = 93 then some ([], bs)
    else if c = 44 then
      match parseVal f bs with
      | some (v, r) => (parseArrTail f r).map (fun p => (v :: p.1, p.2))
      | none => none
    else none

/-- Read the members of an object, positioned right after the opening brace. -/
def parseObjElems : Nat → List Nat → Option (JValue × List Nat)
  | 0, _ => none
  | _ + 1, [] => none
  | f + 1, c :: bs =>
    if c = 125 then some (.jobj [], bs)
    else if c = 34 then
      match parseStrBody bs with
      | some (k, r) =>
        match r with
        | 58 :: r2 =>
          match parseVal f r2 with
          | some (v, r3) =>
            (parseObjTail f r3).map (fun p => (.jobj ((k, v) :: p.1), p.2))
          | none => none
        | _ => none
      | none => none
    else none

/-- Read `,`-separated further members of an object, or its closing brace. -/
def parseObjTail : Nat → List Nat → Option (List (List Nat × JValue) × List Nat)
  | 0, _ => none
  | _ + 1, [] => none
  | f + 1, c :: bs =>
    if c = 125 then some ([], bs)
    else if c = 44 then
      match bs with
      | 34 :: r =>
        match parseStrBody r with
        | some (k, r2) =>
          match r2 with
          | 58 :: r3 =>
            match parseVal f r3 with
            | some (v, r4) =>
              (parseObjTail f r4).map (fun p => ((k, v) :: p.1, p.2))
            | none => none
          | _ => none
        | none => none
      | _ => none
    else none

end

/-- `JSON.parse` on raw bytes: read one value with enough fuel for any
input of this length and require the entire input to be consumed. -/
def jparse (bs : List Nat) : Option JValue :=
  match parseVal (2 * bs.length + 1) bs with
  | some (v, []) => some v
  | _ => none

/-! ## Completeness of the JSON reader on serializer output -/

mutual

/-- Fuel needed to read back a serialized value. -/
def jsize : JValue → Nat
  | .jnull => 1
  | .jbool _ => 1
  | .jnum _ => 1
  | .jstr _ => 1
  | .jarr xs => 2 + sizeL xs
  | .jobj kvs => 2 + sizeM kvs

/-- Fuel needed to read back a serialized element list. -/
def sizeL : List JValue → Nat
  | [] => 1
  | x :: xs => 1 + jsize x + sizeL xs

/-- Fuel needed to read back a serialized member list. -/
def sizeM : List (List Nat × JValue) → Nat
  | [] => 1
  | (_, v) :: kvs => 1 + jsize v + sizeM kvs

end

/-- The next byte, if any, is not a decimal digit (so a maximal digit run
ends exactly where the serializer ended the number). -/
def noDigitHead : List Nat → Bool
  | [] => true
  | c :: _ => !isDigit c

theorem jsize_pos (v : JValue) : 1 ≤ jsize v := by
  cases v <;> simp [jsize] <;> omega

theorem sizeL_pos (xs : List JValue) : 1 ≤ sizeL xs := by
  cases xs <;> simp [sizeL] <;> omega

theorem sizeM_pos (kvs : List (List Nat × JValue)) : 1 ≤ sizeM kvs := by
  rcases kvs with _ | ⟨⟨k, v⟩, t⟩ <;> simp [sizeM] <;> omega

theorem natDigs_digits (n : Nat) : ∀ c ∈ natDigs n, isDigit c = true := by
  induction n using Nat.strong_induction_on with
  | _ n ih =>
    rw [natDigs_eq]
    by_cases h : n < 10
    · simp [h, isDigit]; omega
    · simp only [h, if_false, List.mem_append, List.mem_singleton]
      intro c hc
      rcases hc with hc | hc
      · exact ih (n / 10) (Nat.div_lt_self (by omega) (by norm_num)) c hc
      · subst hc; simp [isDigit]; omega

theorem natDigs_ne_nil (n : Nat) : natDigs n ≠ [] := by
  rw [natDigs_eq]
  by_cases h : n < 10 <;> simp [h]

theorem natFromDigits_natDigs (n : Nat) : natFromDigits (natDigs n) = n := by
  induction n using Nat.strong_induction_on with
  | _ n ih =>
    rw [natDigs_eq]
    by_cases h : n < 10
    · simp [h, natFromDigits]
    · simp only [h, if_false]
      unfold natFromDigits
      rw [List.foldl_append]
      have := ih (n / 10) (Nat.div_lt_self (by omega) (by norm_num))
      unfold natFromDigits at this
      rw [this]
      simp
      omega

theorem takeWhile_digits_append (ds rest : List Nat)
    (hd : ∀ c ∈ ds, isDigit c = true) (hr : noDigitHead rest = true) :
    (ds ++ rest).takeWhile (fun c => isDigit c) = ds ∧
      (ds ++ rest).dropWhile (fun c => isDigit c) = rest := by
  induction ds with
  | nil =>
    simp only [List.nil_append]
    cases rest with
    | nil => simp
    | cons c t =>
      simp only [noDigitHead, Bool.not_eq_true'] at hr
      simp [List.takeWhile, List.dropWhile, hr]
  | cons c t ih =>
    have hc : isDigit c = true := hd c (by simp)
    have ht : ∀ x ∈ t, isDigit x = true := fun x hx => hd x (by simp [hx])
    obtain ⟨h1, h2⟩ := ih ht
    simp [List.takeWhile, List.dropWhile, hc, h1, h2]

theorem parseNatDigits_complete (n : Nat) (rest : List Nat)
    (hr : noDigitHead rest = true) :
    parseNatDigits (natDigs n ++ rest) = some (n, rest) := by
  obtain ⟨h1, h2⟩ := takeWhile_digits_append (natDigs n) rest (natDigs_digits n) hr
  unfold parseNatDigits
  rw [h1, h2]
  simp [natDigs_ne_nil n, natFromDigits_natDigs n]

theorem natDigs_cons (m : Nat) : ∃ c t, natDigs m = c :: t ∧ 48 ≤ c ∧ c ≤ 57 := by
  rcases hn : natDigs m with _ | ⟨c, t⟩
  · exact absurd hn (natDigs_ne_nil m)
  · have hd := natDigs_digits m c (by rw [hn]; simp)
    simp only [isDigit, Bool.and_eq_true, decide_eq_true_eq] at hd
    exact ⟨c, t, rfl, hd.1, hd.2⟩

theorem hexVal_hexDigit : ∀ d < 16, hexVal (hexDigit d) = some d := by decide

theorem parseStrBody_complete (s rest : List Nat) :
    parseStrBody (escBody s ++ 34 :: rest) = some (s, rest) := by
  induction s with
  | nil => simp [escBody, parseStrBody]
  | cons c t ih =>
    have hsplit : escBody (c :: t) = escByte c ++ escBody t := by
      simp [escBody]
    rw [hsplit, List.append_assoc]
    unfold escByte
    by_cases h34 : c = 34
    · subst h34; simp [parseStrBody, parseEsc, unescByte, ih]
    · by_cases h92 : c = 92
      · subst h92; simp [parseStrBody, parseEsc, unescByte, ih]
      · by_cases h8 : c = 8
        · subst h8; simp [parseStrBody, parseEsc, unescByte, ih]
        · by_cases h9 : c = 9
          · subst h9; simp [parseStrBody, parseEsc, unescByte, ih]
          · by_cases h10 : c = 10
            · subst h10; simp [parseStrBody, parseEsc, unescByte, ih]
            · by_cases h12 : c = 12
              · subst h12; simp [parseStrBody, parseEsc, unescByte, ih]
              · by_cases h13 : c = 13
                · subst h13; simp [parseStrBody, parseEsc, unescByte, ih]
                · by_cases hctl : c < 32
                  · have hv1 := hexVal_hexDigit (c / 16) (by omega)
                    have hv2 := hexVal_hexDigit (c % 16) (by omega)
                    have hcode : ((0 * 16 + 0) * 16 + c / 16) * 16 + c % 16 = c := by
                      omega
                    simp only [h34, h92, h8, h9, h10, h12, h13, hctl, if_false,
                      if_true, List.cons_append, List.nil_append]
                    have hv0 : hexVal 48 = some 0 := rfl
                    simp [parseStrBody, parseEsc, hv0, hv1, hv2, hcode,
                      (by omega : c < 256), ih]
                    omega
                  · simp only [h34, h92, h8, h9, h10, h12, h13, hctl, if_false,
                      List.cons_append, List.nil_append]
                    simp [parseStrBody, h34, h92, ih]

theorem stringify_head (v : JValue) :
    ∃ c t, stringify v = c :: t ∧
      (c = 110 ∨ c = 116 ∨ c = 102 ∨ c = 34 ∨ c = 91 ∨ c = 123 ∨ c = 45 ∨
        (48 ≤ c ∧ c ≤ 57)) := by
  cases v with
  | jnull => exact ⟨110, _, rfl, by tauto⟩
  | jbool b =>
    cases b
    · exact ⟨102, _, rfl, by tauto⟩
    · exact ⟨116, _, rfl, by tauto⟩
  | jnum n =>
    simp only [stringify, serInt]
    by_cases hn : n < 0
    · exact ⟨45, _, by rw [if_pos hn], by tauto⟩
    · obtain ⟨c, t, hct, hc1, hc2⟩ := natDigs_cons n.natAbs
      exact ⟨c, t, by rw [if_neg hn, hct], by tauto⟩
  | jstr s => exact ⟨34, _, rfl, by tauto⟩
  | jarr xs => exact ⟨91, _, rfl, by tauto⟩
  | jobj kvs => exact ⟨123, _, rfl, by tauto⟩

theorem noDigitHead_serTail (xs : List JValue) (r : List Nat) :
    noDigitHead (serTail xs ++ r) = true := by
  cases xs <;> simp [serTail, noDigitHead, isDigit]

theorem noDigitHead_serMTail (kvs : List (List Nat × JValue)) (r : List Nat) :
    noDigitHead (serMTail kvs ++ r) = true := by
  rcases kvs with _ | ⟨⟨k, v⟩, t⟩ <;> simp [serMTail, noDigitHead, isDigit]

/-- With fuel at least the size of the serialized value, the reader
recovers every serialized value exactly, leaving any suffix intact
(provided the suffix cannot extend a trailing number). -/
theorem parse_complete (f : Nat) :
    (∀ v rest, jsize v ≤ f → noDigitHead rest = true →
      parseVal f (stringify v ++ rest) = some (v, rest)) ∧
    (∀ xs rest, sizeL xs + 1 ≤ f →
      parseArrElems f (serElems xs ++ rest) = some (.jarr xs, rest)) ∧
    (∀ xs rest, sizeL xs + 1 ≤ f →
      parseArrTail f (serTail xs ++ rest) = some (xs, rest)) ∧
    (∀ kvs rest, sizeM kvs + 1 ≤ f →
      parseObjElems f (serMembers kvs ++ rest) = some (.jobj kvs, rest)) ∧
    (∀ kvs rest, sizeM kvs + 1 ≤ f →
      parseObjTail f (serMTail kvs ++ rest) = some (kvs, rest)) := by
  induction f with
  | zero =>
    refine ⟨fun v _ hs _ => absurd hs ?_, fun xs _ hs => absurd hs ?_,
      fun xs _ hs => absurd hs ?_, fun kvs _ hs => absurd hs ?_,
      fun kvs _ hs => absurd hs ?_⟩
    · have := jsize_pos v; omega
    · have := sizeL_pos xs; omega
    · have := sizeL_pos xs; omega
    · have := sizeM_pos kvs; omega
    · have := sizeM_pos kvs; omega
  | succ f ih =>
    obtain ⟨ihV, ihA, ihT, ihO, ihOT⟩ := ih
    refine ⟨?_, ?_, ?_, ?_, ?_⟩
    · -- parseVal
      intro v rest hs hr
      cases v with
      | jnull => simp [stringify, parseVal]
      | jbool b => cases b <;> simp [stringify, parseVal]
      | jnum n =>
        simp only [stringify, serInt]
        by_cases hn : n < 0
        · rw [if_pos hn]
          have hnd := parseNatDigits_complete n.natAbs rest hr
          have hval : -(n.natAbs : Int) = n := by omega
          simp [parseVal, hnd, hval]
          rw [abs_of_neg hn]
          ring
        · rw [if_neg hn]
          obtain ⟨c, t, hct, hc1, hc2⟩ := natDigs_cons n.natAbs
          rw [hct]
          have hnd := parseNatDigits_complete n.natAbs rest hr
          rw [hct] at hnd
          have hval : ((n.natAbs : Nat) : Int) = n := by omega
          have hdig : isDigit c = true := by simp [isDigit]; omega
          have d110 : ¬(c = 110) := by omega
          have d116 : ¬(c = 116) := by omega
          have d102 : ¬(c = 102) := by omega
          have d34 : ¬(c = 34) := by omega
          have d91 : ¬(c = 91) := by omega
          have d123 : ¬(c = 123) := by omega
          have d45 : ¬(c = 45) := by omega
          simp only [List.cons_append, parseVal]
          rw [if_neg d110, if_neg d116, if_neg d102, if_neg d34, if_neg d91,
            if_neg d123, if_neg d45, if_pos hdig]
          simp only [List.cons_append] at hnd
          simp [hnd, hval]
      | jstr s =>
        have hb := parseStrBody_complete s rest
        simp [stringify, parseVal, hb]
      | jarr xs =>
        have hsz : sizeL xs + 1 ≤ f := by simp [jsize] at hs; omega
        have := ihA xs rest hsz
        simp [stringify, parseVal, this]
      | jobj kvs =>
        have hsz : sizeM kvs + 1 ≤ f := by simp [jsize] at hs; omega
        have := ihO kvs rest hsz
        simp [stringify, parseVal, this]
    · -- parseArrElems
      intro xs rest hle
      cases xs with
      | nil => simp [serElems, parseArrElems]
      | cons x t =>
        obtain ⟨c, ct, hct, hcs⟩ := stringify_head x
        have hx : jsize x ≤ f := by
          have := sizeL_pos t; simp [sizeL] at hle; omega
        have ht : sizeL t + 1 ≤ f := by
          have := jsize_pos x; simp [sizeL] at hle; omega
        have hv := ihV x (serTail t ++ rest) hx (noDigitHead_serTail t rest)
        have htl := ihT t rest ht
        rw [hct] at hv
        simp only [serElems, List.append_assoc, hct, List.cons_append]
        simp only [List.cons_append, List.append_assoc] at hv
        have hne : ¬(c = 93) := by rcases hcs with h | h | h | h | h | h | h | h <;> omega
        simp [parseArrElems, hne, hv, htl]
    · -- parseArrTail
      intro xs rest hle
      cases xs with
      | nil => simp [serTail, parseArrTail]
      | cons x t =>
        have hx : jsize x ≤ f := by
          have := sizeL_pos t; simp [sizeL] at hle; omega
        have ht : sizeL t + 1 ≤ f := by
          have := jsize_pos x; simp [sizeL] at hle; omega
        have hv := ihV x (serTail t ++ rest) hx (noDigitHead_serTail t rest)
        have htl := ihT t rest ht
        simp only [serTail, List.cons_append, List.append_assoc]
        simp only [List.append_assoc] at hv
        simp [parseArrTail, hv, htl]
    · -- parseObjElems
      intro kvs rest hle
      rcases kvs with _ | ⟨⟨k, v⟩, t⟩
      · simp [serMembers, parseObjElems]
      · have hx : jsize v ≤ f := by
          have := sizeM_pos t; simp [sizeM] at hle; omega
        have ht : sizeM t + 1 ≤ f := by
          have := jsize_pos v; simp [sizeM] at hle; omega
        have hk := parseStrBody_complete k
          (58 :: (stringify v ++ (serMTail t ++ rest)))
        have hv := ihV v (serMTail t ++ rest) hx (noDigitHead_serMTail t rest)
        have htl := ihOT t rest ht
        simp only [serMembers, List.cons_append, List.append_assoc,
          List.nil_append]
        simp only [List.append_assoc] at hv hk
        simp [parseObjElems, hk, hv, htl]
    · -- parseObjTail
      intro kvs rest hle
      rcases kvs with _ | ⟨⟨k, v⟩, t⟩
      · simp [serMTail, parseObjTail]
      · have hx : jsize v ≤ f := by
          have := sizeM_pos t; simp [sizeM] at hle; omega
        have ht : sizeM t + 1 ≤ f := by
          have := jsize_pos v; simp [sizeM] at hle; omega
        have hk := parseStrBody_complete k
          (58 :: (stringify v ++ (serMTail t ++ rest)))
        have hv := ihV v (serMTail t ++ rest) hx (noDigitHead_serMTail t rest)
        have htl := ihOT t rest ht
        simp only [serMTail, List.cons_append, List.append_assoc,
          List.nil_append]
        simp only [List.append_assoc] at hv hk
        simp [parseObjTail, hk, hv, htl]

mutual

/-- The fuel `jparse` grants (twice the input length) always suffices. -/
theorem jsize_le (v : JValue) : jsize v + 1 ≤ 2 * (stringify v).length := by
  cases v with
  | jnull => simp [jsize, stringify]
  | jbool b => cases b <;> simp [jsize, stringify]
  | jnum n =>
    have h1 : 1 ≤ (serInt n).length := by
      unfold serInt
      by_cases hn : n < 0
      · simp [hn]
      · simp only [hn, if_false]
        have := natDigs_ne_nil n.natAbs
        cases hd : natDigs n.natAbs
        · exact absurd hd this
        · simp [hd]
    simp [jsize, stringify]
    omega
  | jstr s => simp [jsize, stringify]
  | jarr xs =>
    have := sizeL_le_elems xs
    simp [jsize, stringify]
    omega
  | jobj kvs =>
    have := sizeM_le_members kvs
    simp [jsize, stringify]
    omega

theorem sizeL_le_elems (xs : List JValue) :
    sizeL xs + 1 ≤ 2 * (serElems xs).length := by
  cases xs with
  | nil => simp [sizeL, serElems]
  | cons x t =>
    have h1 := jsize_le x
    have h2 := sizeL_le_tail t
    simp [sizeL, serElems]
    omega

theorem sizeL_le_tail (xs : List JValue) :
    sizeL xs + 1 ≤ 2 * (serTail xs).length := by
  cases xs with
  | nil => simp [sizeL, serTail]
  | cons x t =>
    have h1 := jsize_le x
    have h2 := sizeL_le_tail t
    simp [sizeL, serTail]
    omega

theorem sizeM_le_members (kvs : List (List Nat × JValue)) :
    sizeM kvs + 1 ≤ 2 * (serMembers kvs).length := by
  rcases kvs with _ | ⟨⟨k, v⟩, t⟩
  · simp [sizeM, serMembers]
  · have h1 := jsize_le v
    have h2 := sizeM_le_mtail t
    simp [sizeM, serMembers]
    omega

theorem sizeM_le_mtail (kvs : List (List Nat × JValue)) :
    sizeM kvs + 1 ≤ 2 * (serMTail kvs).length := by
  rcases kvs with _ | ⟨⟨k, v⟩, t⟩
  · simp [sizeM, serMTail]
  · have h1 := jsize_le v
    have h2 := sizeM_le_mtail t
    simp [sizeM, serMTail]
    omega

end

/-- `JSON.parse` recovers every `JSON.stringify` output exactly: the model
of the JSON round-trip the codec relies on. -/
theorem jparse_stringify (v : JValue) : jparse (stringify v) = some v := by
  unfold jparse
  have h := (parse_complete (2 * (stringify v).length + 1)).1 v []
    (by have := jsize_le v; omega) rfl
  rw [List.append_nil] at h
  rw [h]

/-! ## The KOLP container codec (`createKolpFile` / `parseKolpFile`)

`main.ts` lines 103-172. Buffers are byte lists; `buffer.slice(a, b)` is
`extract` (clamping, never throwing); the `readUInt8` / `readBigInt64LE` /
`readUInt32LE` calls throw on a too-short buffer, modeled by `Option`;
`new Date(t).toISOString()` throws a `RangeError` when `|t|` exceeds the
maximal epoch offset `8640000000000000`, so `parseKolpFile` keeps the raw
epoch value behind that guard (the ISO rendering itself is injective on
the valid range and irrelevant to every claim). `createKolpFile` takes the
`Date.now()` reading as an explicit argument and returns `none` exactly
when `JSON` byte length or timestamp would make `writeUInt32LE` /
`writeBigInt64LE` throw a `RangeError` (caught by the IPC handlers). -/

/-- `buffer.slice(a, b)`: bytes from `a` (inclusive) to `b` (exclusive),
clamped to the buffer. -/
def extract (bs : List Nat) (a b : Nat) : List Nat :=
  (bs.drop a).take (b - a)

/-- `buffer.readUInt8(i)`; throws (models as `none`) when out of range. -/
def readU8 (bs : List Nat) (i : Nat) : Option Nat :=
  if i + 1 ≤ bs.length then some (bs.getD i 0) else none

/-- `buffer.readUInt32LE(i)`. -/
def readU32LE (bs : List Nat) (i : Nat) : Option Nat :=
  if i + 4 ≤ bs.length then some (leVal (extract bs i (i + 4))) else none

/-- `buffer.readBigInt64LE(i)`: little-endian, two's complement. -/
def readI64LE (bs : List Nat) (i : Nat) : Option Int :=
  if i + 8 ≤ bs.length then
    some (
      let n := leVal (extract bs i (i + 8))
      if n < 9223372036854775808 then (n : Int)
      else (n : Int) - 18446744073709551616)
  else none

/-- `buffer.writeBigInt64LE(i)`: 8 bytes, little-endian two's complement. -/
def int64LE (i : Int) : List Nat :=
  leBytes 8 (i % 18446744073709551616).toNat

/-- `Buffer.from('KOLP')`. -/
def KOLP_MAGIC : List Nat := [75, 79, 76, 80]

/-- The container format version. -/
def KOLP_VERSION : Nat := 1

/-- The stored checksum: the first 32 hex characters (as ASCII bytes) of
the SHA-256 hex digest of the payload. -/
def checksumOf (payload : List Nat) : List Nat :=
  (hexAscii (sha256 payload)).take 32

/-- The record `parseKolpFile` returns: format version, epoch-millisecond
timestamp (kept as the raw integer; the source renders it as an ISO
instant), stored checksum bytes, and the decoded snapshot. -/
structure KolpFile where
  version : Nat
  timestamp : Int
  checksum : List Nat
  data : JValue

/-- `createKolpFile(data)` (`main.ts` 124-140): serialize the snapshot to
JSON bytes (`compressed` in the source, though no compression is applied),
hash them, and emit the 49-byte header (magic, version, timestamp,
truncated checksum, payload length) followed by the payload. -/
def createKolpFile (now : Int) (data : JValue) : Option (List Nat) :=
  let payload := stringify data
  if payload.length < 4294967296 ∧
      -(9223372036854775808 : Int) ≤ now ∧ now < 9223372036854775808 then
    some (KOLP_MAGIC ++ [KOLP_VERSION] ++ int64LE now ++ checksumOf payload
      ++ leBytes 4 payload.length ++ payload)
  else none

/-- `parseKolpFile(buffer)` (`main.ts` 142-172): validate the magic, read
the header fields, slice exactly `dataLength` payload bytes (silently
truncated if the buffer is shorter), recompute and compare the truncated
checksum, JSON-parse the payload, and return the bundle; every failure
(including any of the reads throwing) is caught and becomes `null`. -/
def parseKolpFile (buffer : List Nat) : Option KolpFile :=
  if buffer.take 4 ≠ KOLP_MAGIC then none
  else
    match readU8 buffer 4, readI64LE buffer 5, readU32LE buffer 45 with
    | some version, some timestamp, some dataLength =>
      let checksumStored := extract buffer 13 45
      let dataBuffer := extract buffer 49 (49 + dataLength)
      if checksumStored ≠ checksumOf dataBuffer then none
      else
        match jparse dataBuffer with
        | none => none
        | some data =>
          if timestamp.natAbs ≤ 8640000000000000 then
            some ⟨version, timestamp, checksumStored, data⟩
          else none
    | _, _, _ => none

/-! ## Frame-recovery lemmas for the container -/

theorem beBytes_length (k : Nat) : ∀ n, (beBytes k n).length = k := by
  induction k with
  | zero => intro n; rfl
  | succ k ih => intro n; simp [beBytes, ih]

theorem flatMap_beBytes4_length (l : List Nat) :
    (l.flatMap (beBytes 4)).length = 4 * l.length := by
  induction l with
  | nil => rfl
  | cons x t ih => simp [List.flatMap, beBytes_length] at *; omega

theorem shaCompress_length (st block : List Nat) :
    (shaCompress st block).length = 8 := by
  simp [shaCompress]

theorem foldl_shaCompress_length (bl : List (List Nat)) :
    ∀ st, st.length = 8 → (bl.foldl shaCompress st).length = 8 := by
  induction bl with
  | nil => intro st h; simpa using h
  | cons b t ih => intro st _; exact ih _ (shaCompress_length st b)

theorem sha256_length (msg : List Nat) : (sha256 msg).length = 32 := by
  unfold sha256
  rw [flatMap_beBytes4_length, foldl_shaCompress_length _ _ (by rfl)]

theorem checksumOf_length (p : List Nat) : (checksumOf p).length = 32 := by
  simp [checksumOf, hexAscii_length, sha256_length]

theorem int64LE_length (i : Int) : (int64LE i).length = 8 := by
  simp [int64LE, leBytes_length]

theorem extract_append_eq (pre mid post bs : List Nat) (a b : Nat)
    (hbs : bs = pre ++ mid ++ post) (ha : pre.length = a)
    (hb : a + mid.length = b) :
    extract bs a b = mid := by
  subst hbs
  subst ha
  unfold extract
  rw [List.append_assoc, List.drop_left]
  have : b - pre.length = mid.length := by omega
  rw [this, List.take_left]

theorem getD_append_len (pre : List Nat) (x : Nat) (post : List Nat) (a : Nat)
    (ha : pre.length = a) :
    (pre ++ x :: post).getD a 0 = x := by
  subst ha
  induction pre with
  | nil => rfl
  | cons y t ih => simpa using ih

theorem leVal_int64LE (i : Int) :
    leVal (int64LE i) = (i % 18446744073709551616).toNat := by
  unfold int64LE
  apply leVal_leBytes
  have h1 : (0 : Int) ≤ i % 18446744073709551616 :=
    Int.emod_nonneg i (by norm_num)
  have h2 : i % 18446744073709551616 < 18446744073709551616 :=
    Int.emod_lt_of_pos i (by norm_num)
  omega

/-- Shape of every buffer `createKolpFile` produces. -/
theorem createKolpFile_eq (now : Int) (data : JValue)
    (hlen : (stringify data).length < 4294967296)
    (hlo : -(9223372036854775808 : Int) ≤ now)
    (hhi : now < 9223372036854775808) :
    createKolpFile now data =
      some (KOLP_MAGIC ++ [KOLP_VERSION] ++ int64LE now
        ++ checksumOf (stringify data)
        ++ leBytes 4 (stringify data).length ++ stringify data) := by
  unfold createKolpFile
  rw [if_pos ⟨hlen, hlo, hhi⟩]

theorem createKolpFile_length (now : Int) (data : JValue) (buf : List Nat)
    (h : createKolpFile now data = some buf) :
    buf.length = 49 + (stringify data).length := by
  unfold createKolpFile at h
  by_cases hc : (stringify data).length < 4294967296 ∧
      -(9223372036854775808 : Int) ≤ now ∧ now < 9223372036854775808
  · rw [if_pos hc] at h
    cases h
    simp [List.length_append, leBytes_length, checksumOf_length, int64LE_length,
      KOLP_MAGIC]
    omega
  · rw [if_neg hc] at h
    cases h

/-- Decoding a well-formed frame recovers the header fields and payload. -/
theorem parseKolpFile_frame (now : Int) (p : List Nat) (d : JValue)
    (hlen : p.length < 4294967296)
    (hlo : -(9223372036854775808 : Int) ≤ now)
    (hhi : now < 9223372036854775808)
    (hts : now.natAbs ≤ 8640000000000000)
    (hjson : jparse p = some d) :
    parseKolpFile (KOLP_MAGIC ++ [KOLP_VERSION] ++ int64LE now ++ checksumOf p
      ++ leBytes 4 p.length ++ p) =
      some ⟨KOLP_VERSION, now, checksumOf p, d⟩ := by
  obtain ⟨T, hT⟩ : ∃ T, int64LE now = T := ⟨_, rfl⟩
  obtain ⟨C, hC⟩ : ∃ C, checksumOf p = C := ⟨_, rfl⟩
  obtain ⟨L, hL⟩ : ∃ L, leBytes 4 p.length = L := ⟨_, rfl⟩
  rw [hT, hC, hL]
  obtain ⟨buf, hbuf⟩ :
      ∃ buf, KOLP_MAGIC ++ [KOLP_VERSION] ++ T ++ C ++ L ++ p = buf := ⟨_, rfl⟩
  rw [hbuf]
  have hTlen : T.length = 8 := by rw [← hT]; exact int64LE_length now
  have hClen : C.length = 32 := by rw [← hC]; exact checksumOf_length p
  have hLlen : L.length = 4 := by rw [← hL]; exact leBytes_length 4 p.length
  have hbuflen : buf.length = 49 + p.length := by
    rw [← hbuf]
    simp [List.length_append, hTlen, hClen, hLlen, KOLP_MAGIC]
    omega
  have htake : buf.take 4 = KOLP_MAGIC := by
    rw [← hbuf]
    simp only [List.append_assoc]
    rw [show (4 : Nat) = KOLP_MAGIC.length from rfl, List.take_left]
  have hver : readU8 buf 4 = some KOLP_VERSION := by
    unfold readU8
    rw [if_pos (by omega)]
    congr 1
    have hshape : buf = KOLP_MAGIC ++
        (KOLP_VERSION :: (T ++ (C ++ (L ++ p)))) := by
      rw [← hbuf]; simp [List.append_assoc]
    rw [hshape]
    exact getD_append_len _ _ _ _ rfl
  have hextT : extract buf 5 13 = T :=
    extract_append_eq (KOLP_MAGIC ++ [KOLP_VERSION]) T (C ++ (L ++ p)) buf 5 13
      (by rw [← hbuf]; simp [List.append_assoc]) (by simp [KOLP_MAGIC])
      (by omega)
  have hextC : extract buf 13 45 = C :=
    extract_append_eq (KOLP_MAGIC ++ [KOLP_VERSION] ++ T) C (L ++ p) buf 13 45
      (by rw [← hbuf]; simp [List.append_assoc])
      (by simp [KOLP_MAGIC, hTlen]) (by omega)
  have hextL : extract buf 45 49 = L :=
    extract_append_eq (KOLP_MAGIC ++ [KOLP_VERSION] ++ T ++ C) L p buf 45 49
      (by rw [← hbuf])
      (by simp [KOLP_MAGIC, hTlen, hClen]) (by omega)
  have hextP : extract buf 49 (49 + p.length) = p :=
    extract_append_eq (KOLP_MAGIC ++ [KOLP_VERSION] ++ T ++ C ++ L) p [] buf
      49 (49 + p.length)
      (by rw [← hbuf]; simp [List.append_assoc])
      (by simp [KOLP_MAGIC, hTlen, hClen, hLlen]) rfl
  have hts64 : readI64LE buf 5 = some now := by
    unfold readI64LE
    rw [if_pos (by omega)]
    congr 1
    simp only [hextT, ← hT, leVal_int64LE]
    have hm1 : (0 : Int) ≤ now % 18446744073709551616 :=
      Int.emod_nonneg now (by norm_num)
    have hm2 : now % 18446744073709551616 < 18446744073709551616 :=
      Int.emod_lt_of_pos now (by norm_num)
    split_ifs with hcase
    · omega
    · omega
  have hlen32 : readU32LE buf 45 = some p.length := by
    unfold readU32LE
    rw [if_pos (by omega)]
    rw [hextL, ← hL, leVal_leBytes 4 p.length (by omega)]
  unfold parseKolpFile
  rw [if_neg (by rw [htake]; simp)]
  rw [hver, hts64, hlen32]
  simp only [hextC, hextP, ← hC]
  rw [if_neg (by simp)]
  simp [hjson, hts]

/-- The payload length field a buffer declares (bytes 45-48, little-endian). -/
def declaredLen (buffer : List Nat) : Nat :=
  leVal (extract buffer 45 49)

/-- The payload slice a buffer carries under its declared length. -/
def payloadOf (buffer : List Nat) : List Nat :=
  extract buffer 49 (49 + declaredLen buffer)

/-- ASCII bytes of a Lean string literal, used to spell concrete snapshots. -/
def asciiBytes (s : String) : List Nat :=
  s.data.map Char.toNat

/-- A concrete snapshot with three notes, one folder, two tags, empty
settings and attachments — the shape the specification's encode scenario
uses. -/
def snapshotExample : JValue :=
  .jobj [
    (asciiBytes "notes", .jarr [
      .jobj [(asciiBytes "id", .jnum 1), (asciiBytes "title", .jstr (asciiBytes "a"))],
      .jobj [(asciiBytes "id", .jnum 2), (asciiBytes "title", .jstr (asciiBytes "b"))],
      .jobj [(asciiBytes "id", .jnum 3), (asciiBytes "title", .jstr (asciiBytes "c"))]]),
    (asciiBytes "folders", .jarr [.jobj [(asciiBytes "id", .jnum 1)]]),
    (asciiBytes "tags", .jarr [.jstr (asciiBytes "work"), .jstr (asciiBytes "home")]),
    (asciiBytes "settings", .jobj []),
    (asciiBytes "attachments", .jobj [])]

/-- Claim C1: for every snapshot whose JSON serialization succeeds (its
byte length fits the 32-bit length field, and the current time is a valid
epoch instant, as `Date.now()` always is), decoding the encoding succeeds
and the decoded `data` field is the snapshot itself — in this model
`JValue` is already the canonical image of a JSON round-trip, so equality
after a JSON round-trip is plain equality. -/
theorem kolp_decode_encode_roundtrip (now : Int) (data : JValue)
    (hlen : (stringify data).length < 4294967296)
    (hts : now.natAbs ≤ 8640000000000000) :
    ∃ buf k, createKolpFile now data = some buf ∧ parseKolpFile buf = some k ∧
      k.data = data ∧ k.version = 1 ∧ k.timestamp = now ∧
      k.checksum = checksumOf (stringify data) := by
  have hlo : -(9223372036854775808 : Int) ≤ now := by omega
  have hhi : now < 9223372036854775808 := by omega
  refine ⟨_, _, createKolpFile_eq now data hlen hlo hhi,
    parseKolpFile_frame now (stringify data) data hlen hlo hhi hts
      (jparse_stringify data), rfl, rfl, rfl, rfl⟩

/-- Witness for claim C1 at a concrete snapshot and timestamp. -/
theorem kolp_decode_encode_roundtrip_witness :
    (stringify snapshotExample).length < 4294967296 ∧
    (1700000000000 : Int).natAbs ≤ 8640000000000000 ∧
    ∃ buf k, createKolpFile 1700000000000 snapshotExample = some buf ∧
      parseKolpFile buf = some k ∧ k.data = snapshotExample ∧ k.version = 1 ∧
      k.timestamp = 1700000000000 ∧
      k.checksum = checksumOf (stringify snapshotExample) :=
  ⟨by decide, by decide,
    kolp_decode_encode_roundtrip 1700000000000 snapshotExample
      (by decide) (by decide)⟩

/-- Claim C2: `createKolpFile` produces exactly `49 + N` bytes — the ASCII
magic `KOLP`, version byte `1`, the first 32 hex characters of the SHA-256
digest of the payload as ASCII at bytes 13-44, the payload length `N`
little-endian at bytes 45-48, and the unchanged JSON payload from byte 49
on (no compression). -/
theorem kolp_encode_layout (now : Int) (data : JValue)
    (hlen : (stringify data).length < 4294967296)
    (hlo : -(9223372036854775808 : Int) ≤ now)
    (hhi : now < 9223372036854775808) :
    ∃ buf, createKolpFile now data = some buf ∧
      buf.length = 49 + (stringify data).length ∧
      buf.take 4 = [75, 79, 76, 80] ∧
      buf.getD 4 0 = 1 ∧
      extract buf 13 45 = (hexAscii (sha256 (stringify data))).take 32 ∧
      leVal (extract buf 45 49) = (stringify data).length ∧
      buf.drop 49 = stringify data := by
  obtain ⟨T, hT⟩ : ∃ T, int64LE now = T := ⟨_, rfl⟩
  obtain ⟨C, hC⟩ : ∃ C, checksumOf (stringify data) = C := ⟨_, rfl⟩
  obtain ⟨L, hL⟩ : ∃ L, leBytes 4 (stringify data).length = L := ⟨_, rfl⟩
  obtain ⟨p, hp⟩ : ∃ p, stringify data = p := ⟨_, rfl⟩
  have hTlen : T.length = 8 := by rw [← hT]; exact int64LE_length now
  have hClen : C.length = 32 := by rw [← hC]; exact checksumOf_length _
  have hLlen : L.length = 4 := by rw [← hL]; exact leBytes_length 4 _
  refine ⟨KOLP_MAGIC ++ [KOLP_VERSION] ++ T ++ C ++ L ++ p, ?_, ?_, ?_, ?_, ?_, ?_, ?_⟩
  · rw [createKolpFile_eq now data hlen hlo hhi, hT, hC, hL, hp]
  · simp [List.length_append, hTlen, hClen, hLlen, KOLP_MAGIC, ← hp]
    omega
  · simp only [List.append_assoc]
    rw [show (4 : Nat) = KOLP_MAGIC.length from rfl, List.take_left]
    rfl
  · have hshape : KOLP_MAGIC ++ [KOLP_VERSION] ++ T ++ C ++ L ++ p =
        KOLP_MAGIC ++ (KOLP_VERSION :: (T ++ (C ++ (L ++ p)))) := by
      simp [List.append_assoc]
    rw [hshape]
    exact getD_append_len _ _ _ _ rfl
  · rw [extract_append_eq (KOLP_MAGIC ++ [KOLP_VERSION] ++ T) C (L ++ p) _ 13 45
      (by simp [List.append_assoc]) (by simp [KOLP_MAGIC, hTlen]) (by omega)]
    rw [← hC]
    rfl
  · rw [extract_append_eq (KOLP_MAGIC ++ [KOLP_VERSION] ++ T ++ C) L p _ 45 49
      (by simp [List.append_assoc]) (by simp [KOLP_MAGIC, hTlen, hClen])
      (by omega)]
    rw [← hL, leVal_leBytes 4 _ (by omega)]
  · rw [show (49 : Nat) =
        (KOLP_MAGIC ++ [KOLP_VERSION] ++ T ++ C ++ L).length by
      simp [KOLP_MAGIC, hTlen, hClen, hLlen]]
    rw [List.drop_left, hp]

/-- Witness for claim C2 at a concrete snapshot and timestamp. -/
theorem kolp_encode_layout_witness :
    (stringify snapshotExample).length < 4294967296 ∧
    (-(9223372036854775808 : Int) ≤ 1700000000000) ∧
    ((1700000000000 : Int) < 9223372036854775808) ∧
    ∃ buf, createKolpFile 1700000000000 snapshotExample = some buf ∧
      buf.length = 49 + (stringify snapshotExample).length ∧
      buf.take 4 = [75, 79, 76, 80] ∧
      buf.getD 4 0 = 1 ∧
      extract buf 13 45 = (hexAscii (sha256 (stringify snapshotExample))).take 32 ∧
      leVal (extract buf 45 49) = (stringify snapshotExample).length ∧
      buf.drop 49 = stringify snapshotExample :=
  ⟨by decide, by decide, by decide,
    kolp_encode_layout 1700000000000 snapshotExample (by decide) (by decide)
      (by decide)⟩

/-- Claim C9: `parseKolpFile` is total at its interface — on every input
it returns a fully decoded record or `null`, never throwing: the empty
buffer and any buffer shorter than the 49-byte header yield `null`, and a
returned record always passed the magic check, the checksum comparison
over the declared payload slice, and a complete JSON decode of that slice
(so no partially decoded value can escape). -/
theorem parseKolpFile_total :
    (∀ buffer, parseKolpFile buffer = none ∨
      ∃ k, parseKolpFile buffer = some k) ∧
    parseKolpFile [] = none ∧
    (∀ buffer, buffer.length < 49 → parseKolpFile buffer = none) ∧
    (∀ buffer k, parseKolpFile buffer = some k →
      buffer.take 4 = KOLP_MAGIC ∧
      extract buffer 13 45 = checksumOf (payloadOf buffer) ∧
      jparse (payloadOf buffer) = some k.data ∧
      k.checksum = extract buffer 13 45) := by
  refine ⟨?_, rfl, ?_, ?_⟩
  · intro buffer
    cases h : parseKolpFile buffer with
    | none => exact Or.inl rfl
    | some k => exact Or.inr ⟨k, rfl⟩
  · intro buffer hlen
    unfold parseKolpFile
    by_cases hm : buffer.take 4 ≠ KOLP_MAGIC
    · rw [if_pos hm]
    · rw [if_neg hm]
      have h32 : readU32LE buffer 45 = none := by
        unfold readU32LE
        rw [if_neg (by omega)]
      rcases h8 : readU8 buffer 4 with _ | v
      · simp [h8]
      · rcases h64 : readI64LE buffer 5 with _ | ts
        · simp [h8, h64]
        · simp [h8, h64, h32]
  · intro buffer k h
    unfold parseKolpFile at h
    by_cases hm : buffer.take 4 ≠ KOLP_MAGIC
    · rw [if_pos hm] at h
      cases h
    · rw [if_neg hm] at h
      rcases h8 : readU8 buffer 4 with _ | ver <;> rw [h8] at h
      · cases h
      rcases h64 : readI64LE buffer 5 with _ | ts <;> rw [h64] at h
      · cases h
      rcases h32 : readU32LE buffer 45 with _ | n <;> rw [h32] at h
      · cases h
      have hn : n = declaredLen buffer := by
        unfold readU32LE at h32
        by_cases hb : 45 + 4 ≤ buffer.length
        · rw [if_pos hb] at h32
          cases h32
          rfl
        · rw [if_neg hb] at h32
          cases h32
      subst hn
      simp only at h
      rcases hj : jparse (extract buffer 49 (49 + declaredLen buffer))
        with _ | d <;> rw [hj] at h
      · split_ifs at h
      · split_ifs at h with h1 h2
        cases h
        exact ⟨not_not.mp hm, not_ne_iff.mp h1, hj, rfl⟩

/-- Witness for claim C9 at a concrete too-short buffer. -/
theorem parseKolpFile_total_witness :
    ([75, 79, 76, 80].length < 49) ∧ parseKolpFile [75, 79, 76, 80] = none :=
  ⟨by decide, parseKolpFile_total.2.2.1 [75, 79, 76, 80] (by decide)⟩

/-! ## Google sync IPC handlers (`google-sync-upload`, `google-sync-download`)

`main.ts` lines 666-734. Each handler mixes local logic with remote calls
(`refreshAccessToken`, `findKolpFileInDrive`, `deleteFileFromDrive`,
`uploadToGoogleDrive`, `downloadFromGoogleDrive`) and local file writes.
The embedding makes the handler a deterministic function of a `SyncEnv`
oracle that fixes `Date.now()`, the stored token record, and the outcome
of every remote call, and returns the handler result together with the
ordered list of side effects it performed. -/

/-- The stored token record (`google_tokens.json`). -/
structure GoogleTokens where
  access_token : String
  refresh_token : String
  expiry_date : Int
  email : Option String

/-- Oracle for one handler invocation: the clock, the stored tokens, and
the outcome of each remote call should it be made. -/
structure SyncEnv where
  now : Int
  tokens : Option GoogleTokens
  refreshResult : Option String
  tokensAfterRefresh : GoogleTokens
  findResult : Option String
  deleteResult : Bool
  uploadOutcome : Except String String
  downloadResult : Option (List Nat)

/-- One observable side effect of a sync handler, in program order. -/
inductive Eff where
  | refreshTok : Eff
  | writeLocal (bytes : List Nat) : Eff
  | driveFind (token : String) : Eff
  | driveDelete (token : String) (fileId : String) : Eff
  | driveUpload (token : String) (bytes : List Nat) : Eff
  | driveDownload (token : String) (fileId : String) : Eff
deriving DecidableEq

/-- A handler result: `{success: true, fileId}`, `{success: true, data}`,
or `{success: false, error}`. -/
inductive SyncResult where
  | ok (fileId : String) : SyncResult
  | okData (k : KolpFile) : SyncResult
  | err (msg : String) : SyncResult

/-- The shared prologue of both handlers (`main.ts` 668-679 and 700-711):
load tokens, fail with `Not authenticated` when absent; when the expiry is
within 60 seconds (or past), call `refreshAccessToken` once, fail with
`Token refresh failed` when it yields no token, and re-load the stored
record afterwards; otherwise keep the cached record untouched. -/
def obtainToken (env : SyncEnv) :
    (SyncResult × List Eff) ⊕ (GoogleTokens × List Eff) :=
  match env.tokens with
  | none => Sum.inl (.err "Not authenticated", [])
  | some t =>
    if env.now ≥ t.expiry_date - 60000 then
      match env.refreshResult with
      | none => Sum.inl (.err "Token refresh failed", [.refreshTok])
      | some _ => Sum.inr (env.tokensAfterRefresh, [.refreshTok])
    else Sum.inr (t, [])

/-- The `google-sync-upload` handler (`main.ts` 666-696): obtain a valid
token, encode the snapshot (a thrown `RangeError` is caught by the
surrounding `try` and surfaced as a failure), write the local backup file,
find an existing remote backup, delete it when present, and upload the
fresh container. -/
def googleSyncUpload (env : SyncEnv) (data : JValue) :
    SyncResult × List Eff :=
  match obtainToken env with
  | Sum.inl r => r
  | Sum.inr (t, tr) =>
    match createKolpFile env.now data with
    | none => (.err "Encode failed", tr)
    | some buf =>
      let tr1 := tr ++ [.writeLocal buf, .driveFind t.access_token]
      let tr2 := match env.findResult with
        | some fid => tr1 ++ [.driveDelete t.access_token fid]
        | none => tr1
      let tr3 := tr2 ++ [.driveUpload t.access_token buf]
      match env.uploadOutcome with
      | .ok fid => (.ok fid, tr3)
      | .error m => (.err m, tr3)

/-- The `google-sync-download` handler (`main.ts` 698-734): obtain a valid
token, locate the newest remote backup, download it, decode it with
`parseKolpFile`, and only on a successful decode write the downloaded
bytes to the local backup file. -/
def googleSyncDownload (env : SyncEnv) : SyncResult × List Eff :=
  match obtainToken env with
  | Sum.inl r => r
  | Sum.inr (t, tr) =>
    let tr1 := tr ++ [.driveFind t.access_token]
    match env.findResult with
    | none => (.err "No backup found in Google Drive", tr1)
    | some fid =>
      let tr2 := tr1 ++ [.driveDownload t.access_token fid]
      match env.downloadResult with
      | none => (.err "Download failed", tr2)
      | some buf =>
        match parseKolpFile buf with
        | none => (.err "Invalid KOLP file", tr2)
        | some parsed => (.okData parsed, tr2 ++ [.writeLocal buf])

/-- The bearer token a remote-call effect carries, if it is a remote call. -/
def effToken : Eff → Option String
  | .refreshTok => none
  | .writeLocal _ => none
  | .driveFind tok => some tok
  | .driveDelete tok _ => some tok
  | .driveUpload tok _ => some tok
  | .driveDownload tok _ => some tok

/-- Every remote call in the trace carries the given bearer token. -/
def usesTok (tok : String) (tr : List Eff) : Bool :=
  tr.all fun e =>
    match effToken e with
    | none => true
    | some s => s = tok

/-- Number of token-refresh attempts in a trace. -/
def countRefresh (tr : List Eff) : Nat :=
  tr.count .refreshTok

theorem obtainToken_noRefresh (env : SyncEnv) (t : GoogleTokens)
    (htok : env.tokens = some t) (hlt : env.now < t.expiry_date - 60000) :
    obtainToken env = Sum.inr (t, []) := by
  unfold obtainToken
  rw [htok]
  simp only [if_neg (by omega : ¬(env.now ≥ t.expiry_date - 60000))]

theorem obtainToken_refreshFail (env : SyncEnv) (t : GoogleTokens)
    (htok : env.tokens = some t) (hge : env.now ≥ t.expiry_date - 60000)
    (hrf : env.refreshResult = none) :
    obtainToken env = Sum.inl (.err "Token refresh failed", [.refreshTok]) := by
  unfold obtainToken
  rw [htok]
  simp only [if_pos hge, hrf]

theorem obtainToken_refreshOk (env : SyncEnv) (t : GoogleTokens) (s : String)
    (htok : env.tokens = some t) (hge : env.now ≥ t.expiry_date - 60000)
    (hrf : env.refreshResult = some s) :
    obtainToken env = Sum.inr (env.tokensAfterRefresh, [.refreshTok]) := by
  unfold obtainToken
  rw [htok]
  simp only [if_pos hge, hrf]

/-- Claim C4: with a stored token record, a sync operation skips the token
refresh exactly when the expiry lies more than 60 seconds ahead of the
clock, and then every remote call carries the cached access token; when
the expiry is within 60 seconds or past, the refresh is attempted exactly
once, before any remote call, and a refresh that yields no token fails the
operation with `Token refresh failed` without any storage-API call. -/
theorem refresh_skip_policy (env : SyncEnv) (t : GoogleTokens) (d : JValue)
    (htok : env.tokens = some t) :
    (env.now < t.expiry_date - 60000 →
      countRefresh (googleSyncUpload env d).2 = 0 ∧
      countRefresh (googleSyncDownload env).2 = 0 ∧
      usesTok t.access_token (googleSyncUpload env d).2 = true ∧
      usesTok t.access_token (googleSyncDownload env).2 = true) ∧
    (env.now ≥ t.expiry_date - 60000 →
      ((googleSyncUpload env d).2.head? = some .refreshTok ∧
        countRefresh (googleSyncUpload env d).2 = 1 ∧
        (googleSyncDownload env).2.head? = some .refreshTok ∧
        countRefresh (googleSyncDownload env).2 = 1) ∧
      (env.refreshResult = none →
        googleSyncUpload env d = (.err "Token refresh failed", [.refreshTok]) ∧
        googleSyncDownload env = (.err "Token refresh failed", [.refreshTok]))) := by
  constructor
  · intro hlt
    have hob := obtainToken_noRefresh env t htok hlt
    unfold googleSyncUpload googleSyncDownload
    rw [hob]
    rcases createKolpFile env.now d with _ | buf <;>
      rcases env.findResult with _ | fid <;>
      rcases env.uploadOutcome with m | fid2 <;>
      rcases env.downloadResult with _ | dl <;>
      simp [countRefresh, usesTok, effToken] <;>
      rcases parseKolpFile dl with _ | k <;>
      simp [countRefresh, usesTok, effToken]
  · intro hge
    constructor
    · rcases hrf : env.refreshResult with _ | s
      · have hob := obtainToken_refreshFail env t htok hge hrf
        unfold googleSyncUpload googleSyncDownload
        rw [hob]
        simp [countRefresh]
      · have hob := obtainToken_refreshOk env t s htok hge hrf
        unfold googleSyncUpload googleSyncDownload
        rw [hob]
        rcases createKolpFile env.now d with _ | buf <;>
          rcases env.findResult with _ | fid <;>
          rcases env.uploadOutcome with m | fid2 <;>
          rcases env.downloadResult with _ | dl <;>
          simp [countRefresh] <;>
          rcases parseKolpFile dl with _ | k <;>
          simp [countRefresh]
    · intro hrf
      have hob := obtainToken_refreshFail env t htok hge hrf
      unfold googleSyncUpload googleSyncDownload
      rw [hob]
      exact ⟨rfl, rfl⟩

/-- A concrete environment with a fresh cached token, for witnesses. -/
def envFresh : SyncEnv :=
  ⟨0, some ⟨"tokA", "r", 1000000, none⟩, none, ⟨"tokB", "r", 0, none⟩,
    none, true, .ok "id1", none⟩

/-- Witness for claim C4 at a concrete environment whose cached token is
still fresh. -/
theorem refresh_skip_policy_witness :
    envFresh.tokens = some ⟨"tokA", "r", 1000000, none⟩ ∧
    envFresh.now < (1000000 : Int) - 60000 ∧
    countRefresh (googleSyncUpload envFresh JValue.jnull).2 = 0 := by
  refine ⟨rfl, by decide, ?_⟩
  exact ((refresh_skip_policy envFresh ⟨"tokA", "r", 1000000, none⟩
    JValue.jnull rfl).1 (by decide)).1

/-- Claim C6: the download handler writes the local backup file only after
`parseKolpFile` succeeds on the downloaded bytes — every failed result
leaves the trace without a local write, and a local write only happens as
the final step, with the downloaded, successfully decoded bytes. -/
theorem download_writes_only_after_decode (env : SyncEnv) :
    (∀ m, (googleSyncDownload env).1 = .err m →
      ∀ b, Eff.writeLocal b ∉ (googleSyncDownload env).2) ∧
    (∀ k, (googleSyncDownload env).1 = .okData k →
      ∃ b, env.downloadResult = some b ∧ parseKolpFile b = some k ∧
        (googleSyncDownload env).2.getLast? = some (.writeLocal b)) := by
  rcases htok : env.tokens with _ | t
  · have hob : obtainToken env = Sum.inl (.err "Not authenticated", []) := by
      unfold obtainToken
      rw [htok]
    unfold googleSyncDownload
    rw [hob]
    exact ⟨fun m _ b => by simp, fun k hk => by cases hk⟩
  · have hbody : ∀ tr : List Eff, (∀ b, Eff.writeLocal b ∉ tr) →
        ∀ tok : GoogleTokens, obtainToken env = Sum.inr (tok, tr) →
        (∀ m, (googleSyncDownload env).1 = .err m →
          ∀ b, Eff.writeLocal b ∉ (googleSyncDownload env).2) ∧
        (∀ k, (googleSyncDownload env).1 = .okData k →
          ∃ b, env.downloadResult = some b ∧ parseKolpFile b = some k ∧
            (googleSyncDownload env).2.getLast? = some (.writeLocal b)) := by
      intro tr htr tok hob
      unfold googleSyncDownload
      rw [hob]
      rcases hf : env.findResult with _ | fid
      · constructor
        · intro m _ b
          simp [htr b]
        · intro k hk
          simp at hk
      · rcases hd : env.downloadResult with _ | dl
        · constructor
          · intro m _ b
            simp [htr b]
          · intro k hk
            simp at hk
        · constructor
          · intro m hm b
            rcases hp : parseKolpFile dl with _ | k2
            · simp [hp, htr b]
            · simp [hp] at hm
          · intro k hk
            rcases hp : parseKolpFile dl with _ | k2
            · simp [hp] at hk
            · simp [hp] at hk
              subst hk
              refine ⟨dl, rfl, hp, ?_⟩
              simp [hp]
    by_cases hge : env.now ≥ t.expiry_date - 60000
    · rcases hrf : env.refreshResult with _ | s
      · have hob := obtainToken_refreshFail env t htok hge hrf
        unfold googleSyncDownload
        rw [hob]
        exact ⟨fun m _ b => by simp, fun k hk => by cases hk⟩
      · exact hbody [.refreshTok] (fun b => by simp) env.tokensAfterRefresh
          (obtainToken_refreshOk env t s htok hge hrf)
    · exact hbody [] (fun b => by simp) t
        (obtainToken_noRefresh env t htok (by omega))

/-- A concrete environment with no stored token record, for witnesses. -/
def envNoAuth : SyncEnv :=
  ⟨0, none, none, ⟨"t", "r", 0, none⟩, none, true, .ok "id", none⟩

/-- Witness for claim C6 at a concrete failing environment (no stored
token record). -/
theorem download_writes_only_after_decode_witness :
    (googleSyncDownload envNoAuth).1 = .err "Not authenticated" ∧
    Eff.writeLocal [1, 2] ∉ (googleSyncDownload envNoAuth).2 :=
  ⟨rfl, (download_writes_only_after_decode envNoAuth).1 "Not authenticated"
    rfl [1, 2]⟩

/-! ## Remote-store semantics for the upload policy -/

/-- How one effect transforms the remote store (a list of object ids):
a delete that the provider accepts removes the object, a successful upload
appends the fresh object, everything else leaves the store alone. -/
def applyEff (env : SyncEnv) (store : List String) : Eff → List String
  | .driveDelete _ fid => if env.deleteResult then store.erase fid else store
  | .driveUpload _ _ =>
    match env.uploadOutcome with
    | .ok newId => store ++ [newId]
    | .error _ => store
  | _ => store

/-- Run a whole effect trace against the remote store. -/
def applyTrace (env : SyncEnv) (store : List String) (tr : List Eff) :
    List String :=
  tr.foldl (applyEff env) store

/-- Claim C7: an upload against a store holding exactly one backup object
performs find, then delete of that object, then upload of the fresh
container, in that strict order, and leaves the store holding exactly the
new object — never two. (The token phase is taken in its non-refreshing
form, and the remote delete and upload are assumed accepted, as in the
specification scenario.) -/
theorem upload_single_backup (env : SyncEnv) (t : GoogleTokens) (d : JValue)
    (a fid : String)
    (htok : env.tokens = some t)
    (hfresh : env.now < t.expiry_date - 60000)
    (hfind : env.findResult = some a)
    (hdel : env.deleteResult = true)
    (hup : env.uploadOutcome = .ok fid)
    (henc : (createKolpFile env.now d).isSome = true) :
    ∃ buf, createKolpFile env.now d = some buf ∧
      googleSyncUpload env d = (.ok fid,
        [.writeLocal buf, .driveFind t.access_token,
          .driveDelete t.access_token a, .driveUpload t.access_token buf]) ∧
      applyTrace env [a] (googleSyncUpload env d).2 = [fid] := by
  rcases hbuf : createKolpFile env.now d with _ | buf
  · rw [hbuf] at henc
    cases henc
  · have hob := obtainToken_noRefresh env t htok hfresh
    have heq : googleSyncUpload env d = (.ok fid,
        [.writeLocal buf, .driveFind t.access_token,
          .driveDelete t.access_token a, .driveUpload t.access_token buf]) := by
      unfold googleSyncUpload
      rw [hob]
      simp [hbuf, hfind, hup]
    refine ⟨buf, rfl, heq, ?_⟩
    rw [heq]
    simp [applyTrace, applyEff, hdel, hup]

/-- A concrete environment holding one stale remote object, for witnesses. -/
def envOneObject : SyncEnv :=
  ⟨0, some ⟨"tok", "r", 1000000, none⟩, none, ⟨"tokB", "r", 0, none⟩,
    some "old", true, .ok "new", none⟩

/-- Witness for claim C7 at a concrete environment with one old object. -/
theorem upload_single_backup_witness :
    envOneObject.tokens = some ⟨"tok", "r", 1000000, none⟩ ∧
    envOneObject.now < (1000000 : Int) - 60000 ∧
    envOneObject.findResult = some "old" ∧
    envOneObject.deleteResult = true ∧
    envOneObject.uploadOutcome = .ok "new" ∧
    (createKolpFile envOneObject.now JValue.jnull).isSome = true ∧
    ∃ buf, createKolpFile envOneObject.now JValue.jnull = some buf ∧
      googleSyncUpload envOneObject JValue.jnull = (.ok "new",
        [.writeLocal buf, .driveFind "tok", .driveDelete "tok" "old",
          .driveUpload "tok" buf]) ∧
      applyTrace envOneObject ["old"]
        (googleSyncUpload envOneObject JValue.jnull).2 = ["new"] :=
  ⟨rfl, by decide, rfl, rfl, rfl, by decide,
    upload_single_backup envOneObject ⟨"tok", "r", 1000000, none⟩
      JValue.jnull "old" "new" rfl (by decide) rfl rfl rfl (by decide)⟩

/-! ## The Drive query helper (`findKolpFileInDrive`, `main.ts` 410-437) -/

/-- One object in a Drive file-list response. -/
structure DriveFile where
  id : String

/-- A parsed Drive file-list response. -/
structure DriveListResponse where
  files : List DriveFile

/-- The name filter of the query `findKolpFileInDrive` issues. -/
def findKolpQueryNameContains : String := "kolp_backup"

/-- The ordering of the query `findKolpFileInDrive` issues. -/
def findKolpQueryOrderBy : String := "modifiedTime desc"

/-- The page size of the query `findKolpFileInDrive` issues. -/
def findKolpQueryPageSize : Nat := 1

/-- `findKolpFileInDrive` (`main.ts` 410-437), given the parsed response
(`none` models a transport error or unparseable body): resolve the first
listed object id, or `null` when the list is absent or empty. -/
def findKolpFileInDrive (resp : Option DriveListResponse) : Option String :=
  match resp with
  | none => none
  | some r =>
    match r.files with
    | [] => none
    | f :: _ => some f.id

/-- Number of remote deletions in a trace. -/
def countDeletes (tr : List Eff) : Nat :=
  tr.countP fun e =>
    match e with
    | .driveDelete _ _ => true
    | _ => false

/-- Claim C10: one upload invocation deletes at most one pre-existing
remote object — the find query asks for a single page entry, the helper
returns at most the first listed identifier, and the handler passes only
that identifier to delete, whatever the store contains. -/
theorem upload_deletes_at_most_one (env : SyncEnv) (d : JValue) :
    countDeletes (googleSyncUpload env d).2 ≤ 1 ∧
    findKolpQueryPageSize = 1 ∧
    (∀ r : DriveListResponse,
      findKolpFileInDrive (some r) = r.files.head?.map DriveFile.id) ∧
    findKolpFileInDrive none = none := by
  refine ⟨?_, rfl, ?_, rfl⟩
  · rcases htok : env.tokens with _ | t
    · have hob : obtainToken env = Sum.inl (.err "Not authenticated", []) := by
        unfold obtainToken
        rw [htok]
      unfold googleSyncUpload
      rw [hob]
      simp [countDeletes]
    · have hbody : ∀ tr : List Eff, tr = [] ∨ tr = [.refreshTok] →
          ∀ tok : GoogleTokens, obtainToken env = Sum.inr (tok, tr) →
          countDeletes (googleSyncUpload env d).2 ≤ 1 := by
        intro tr htr tok hob
        unfold googleSyncUpload
        rw [hob]
        rcases htr with rfl | rfl <;>
          rcases createKolpFile env.now d with _ | buf <;>
          rcases env.findResult with _ | fid <;>
          rcases env.uploadOutcome with m | fid2 <;>
          simp [countDeletes, List.countP_append, List.countP_cons]
      by_cases hge : env.now ≥ t.expiry_date - 60000
      · rcases hrf : env.refreshResult with _ | s
        · have hob := obtainToken_refreshFail env t htok hge hrf
          unfold googleSyncUpload
          rw [hob]
          simp [countDeletes]
        · exact hbody [.refreshTok] (Or.inr rfl)
            env.tokensAfterRefresh (obtainToken_refreshOk env t s htok hge hrf)
      · exact hbody [] (Or.inl rfl) t (obtainToken_noRefresh env t htok (by omega))
  · intro r
    rcases r with ⟨_ | ⟨f, fs⟩⟩ <;> simp [findKolpFileInDrive]

/-! ## The OAuth loopback flow (`startGoogleAuth`, `main.ts` 178-256)

One invocation generates a random `state`, starts the loopback listener,
and then either a callback request arrives (with the outcome of the code
exchange and the user-info fetch fixed by the oracle) or the five-minute
timer fires first. `handleCallback` is the request handler's body; the
run function composes it with the timer, which closes the listener and
resolves with a timeout whenever the handler has not already resolved.
Effects are listed in program order, and an invocation's value is the
argument of its first `resolve` call. -/

/-- The query data of a loopback callback request. -/
structure CallbackReq where
  pathname : String
  code : Option String
  state : Option String

/-- A parsed token-endpoint response body (`access_token` absent models a
well-formed error body, for which the handler silently does nothing). -/
structure TokenResponse where
  access_token : Option String
  refresh_token : String
  expires_in : Int

/-- One observable effect of the OAuth flow, in program order. -/
inductive AEff where
  | exchangeCode (code : Option String) : AEff
  | fetchUserInfo : AEff
  | saveTokens : AEff
  | saveCredentials : AEff
  | respond (status : Nat) : AEff
  | closeServer : AEff
deriving DecidableEq

/-- The value `startGoogleAuth` resolves with. -/
inductive AuthResult where
  | ok (email : String) : AuthResult
  | fail (msg : String) : AuthResult
deriving DecidableEq

/-- The loopback request handler (`main.ts` 191-245): ignore paths other
than `/callback`; reject a state mismatch with a 400 page, close and
resolve failed; otherwise exchange the code (a rejection is caught: 500
page, close, resolve failed with the thrown message), and on a token
response carrying an access token fetch the user info (same catch),
persist tokens then credentials, respond 200, close, and resolve with the
email. A token response without `access_token` leaves the request open
and the flow pending. Returns the resolved value, if any, and the
effects. -/
def handleCallback (flowState : String) (req : CallbackReq)
    (exch : Except String TokenResponse) (userInfo : Except String String) :
    Option AuthResult × List AEff :=
  if req.pathname ≠ "/callback" then (none, [])
  else if req.state ≠ some flowState then
    (some (.fail "Invalid state"), [.respond 400, .closeServer])
  else
    match exch with
    | .error m => (some (.fail m), [.exchangeCode req.code, .respond 500,
        .closeServer])
    | .ok resp =>
      match resp.access_token with
      | none => (none, [.exchangeCode req.code])
      | some _ =>
        match userInfo with
        | .error m => (some (.fail m), [.exchangeCode req.code,
            .fetchUserInfo, .respond 500, .closeServer])
        | .ok email => (some (.ok email), [.exchangeCode req.code,
            .fetchUserInfo, .saveTokens, .saveCredentials, .respond 200,
            .closeServer])

/-- One run of `startGoogleAuth`: either no callback arrives before the
five-minute timer (which closes the listener and resolves a timeout), or
the single meaningful callback is handled — and when it does not resolve
the flow, the timer still fires and resolves a timeout. The returned pair
is the first resolved value and the effects up to and including that
resolution. -/
def startGoogleAuthRun (flowState : String)
    (cb : Option (CallbackReq × Except String TokenResponse ×
      Except String String)) : AuthResult × List AEff :=
  match cb with
  | none => (.fail "Authentication timeout", [.closeServer])
  | some (req, exch, userInfo) =>
    match handleCallback flowState req exch userInfo with
    | (some r, effs) => (r, effs)
    | (none, effs) => (.fail "Authentication timeout", effs ++ [.closeServer])

/-- Claim C5: a callback to the callback path whose `state` differs from
the flow's generated state resolves the flow as failed with the
state-mismatch error, with no code exchange and nothing persisted,
whatever the `code` carries. -/
theorem state_mismatch_rejected (flowState : String) (req : CallbackReq)
    (exch : Except String TokenResponse) (userInfo : Except String String)
    (hpath : req.pathname = "/callback")
    (hstate : req.state ≠ some flowState) :
    handleCallback flowState req exch userInfo =
      (some (.fail "Invalid state"), [.respond 400, .closeServer]) ∧
    startGoogleAuthRun flowState (some (req, exch, userInfo)) =
      (.fail "Invalid state", [.respond 400, .closeServer]) ∧
    (∀ c, AEff.exchangeCode c ∉
      (handleCallback flowState req exch userInfo).2) ∧
    AEff.saveTokens ∉ (handleCallback flowState req exch userInfo).2 := by
  have h : handleCallback flowState req exch userInfo =
      (some (.fail "Invalid state"), [.respond 400, .closeServer]) := by
    unfold handleCallback
    rw [if_neg (by simp [hpath]), if_pos hstate]
  refine ⟨h, ?_, ?_, ?_⟩
  · simp [startGoogleAuthRun, h]
  · intro c
    rw [h]
    simp
  · rw [h]
    simp

/-- Witness for claim C5 at a concrete mismatching callback. -/
theorem state_mismatch_rejected_witness :
    ((⟨"/callback", some "anycode", some "evil"⟩ : CallbackReq).pathname =
      "/callback") ∧
    ((⟨"/callback", some "anycode", some "evil"⟩ : CallbackReq).state ≠
      some "good") ∧
    startGoogleAuthRun "good" (some (⟨"/callback", some "anycode",
        some "evil"⟩, .ok ⟨some "at", "rt", 3600⟩, .ok "user@example.com")) =
      (.fail "Invalid state", [.respond 400, .closeServer]) :=
  ⟨rfl, by decide,
    (state_mismatch_rejected "good" ⟨"/callback", some "anycode", some "evil"⟩
      (.ok ⟨some "at", "rt", 3600⟩) (.ok "user@example.com") rfl
      (by decide)).2.1⟩

/-- Claim C8: every invocation resolves with a success or failure result;
at the moment of that first resolution the listener has been closed
exactly once, as the effect immediately preceding the resolution; and a
rejection during the code exchange (network or parse failure) on a
state-matching callback resolves the flow as failed with the underlying
message. -/
theorem auth_always_resolves_listener_closed (flowState : String)
    (cb : Option (CallbackReq × Except String TokenResponse ×
      Except String String)) :
    (∃ r effs, startGoogleAuthRun flowState cb = (r, effs)) ∧
    (startGoogleAuthRun flowState cb).2.count .closeServer = 1 ∧
    (startGoogleAuthRun flowState cb).2.getLast? = some .closeServer ∧
    (∀ req m userInfo, cb = some (req, .error m, userInfo) →
      req.pathname = "/callback" → req.state = some flowState →
      (startGoogleAuthRun flowState cb).1 = .fail m) := by
  have hclose : (startGoogleAuthRun flowState cb).2.count .closeServer = 1 ∧
      (startGoogleAuthRun flowState cb).2.getLast? = some .closeServer := by
    rcases cb with _ | ⟨req, exch, userInfo⟩
    · simp [startGoogleAuthRun]
    · simp only [startGoogleAuthRun]
      unfold handleCallback
      by_cases hpath : req.pathname ≠ "/callback"
      · rw [if_pos hpath]
        simp
      · rw [if_neg hpath]
        by_cases hstate : req.state ≠ some flowState
        · rw [if_pos hstate]
          simp
        · rw [if_neg hstate]
          rcases exch with m | resp
          · simp
          · rcases hat : resp.access_token with _ | at2
            · simp [hat]
            · rcases userInfo with m2 | email <;> simp [hat]
  refine ⟨⟨_, _, rfl⟩, hclose.1, hclose.2, ?_⟩
  intro req m userInfo hcb hp hs
  subst hcb
  simp only [startGoogleAuthRun]
  unfold handleCallback
  rw [if_neg (by simp [hp]), if_neg (by simp [hs])]

/-- Witness for claim C8 at a concrete exchange-failure run. -/
theorem auth_always_resolves_listener_closed_witness :
    (startGoogleAuthRun "st" (some (⟨"/callback", some "c", some "st"⟩,
        .error "socket hang up", .ok "e"))).1 = .fail "socket hang up" ∧
    (startGoogleAuthRun "st" (some (⟨"/callback", some "c", some "st"⟩,
        .error "socket hang up", .ok "e"))).2.count .closeServer = 1 :=
  ⟨(auth_always_resolves_listener_closed "st"
      (some (⟨"/callback", some "c", some "st"⟩, .error "socket hang up",
        .ok "e"))).2.2.2 ⟨"/callback", some "c", some "st"⟩ "socket hang up"
      (.ok "e") rfl rfl rfl,
    (auth_always_resolves_listener_closed "st"
      (some (⟨"/callback", some "c", some "st"⟩, .error "socket hang up",
        .ok "e"))).2.1⟩

end Kolp
